import Mathlib

/-!
# Verification of the Ultrasonic-Agent simulation engine

A shallow embedding of the core of the repository:
`engine/simulator.py` (the `Simulator` class: graph closure, the three
rollback policies, and the `step` transition) and `engine/validators.py`
(the readiness validators used by `GENERATE_REPORT`).

Conventions of the embedding:
* Python values stored in the mutable `state` dict are modelled by the
  inductive type `Val` (`None`, booleans, integers, strings, lists, dicts).
* Python dicts whose iteration order matters are modelled as association
  lists (`List (String × Val)`); `dict.get` is `List.lookup`.
* Python `set` objects are modelled as `List String` values used up to
  duplication; where the source materialises a set (`len`, `sorted`,
  `list(sorted(...))`) the embedding deduplicates and, for `sorted`,
  orders by the code-point order Python uses on strings.
* The in-place mutation of `state` / `executed_nodes` performed by
  `Simulator.step` is modelled by returning the new values inside the
  `StepResult` record (the source also returns them, as `updated_state`
  and `executed_nodes`).
-/

/-- A Python runtime value as stored in the simulator `state` dict:
`None`, a bool, an int, a string, a list, or a (string-keyed) dict. -/
inductive Val where
  | vnone  : Val
  | vbool  : Bool → Val
  | vint   : Int → Val
  | vstr   : String → Val
  | vlist  : List Val → Val
  | vdict  : List (String × Val) → Val

/-- The mutable `state` mapping: field name → value. -/
abbrev St := List (String × Val)

/-- `state.get(k)` / `state[k]` where the key may be missing. -/
def stGet (st : St) (k : String) : Option Val := st.lookup k

/-- `state[k] = v`: replace the value at `k` in place (keeping the dict
position of an existing key, as CPython does), else append the new key. -/
def stSet : St → String → Val → St
  | [], k, v => [(k, v)]
  | (k', v') :: rest, k, v =>
      if k' = k then (k, v) :: rest else (k', v') :: stSet rest k v

/-- `state.pop(k, None)`: remove the key `k` if present. -/
def stErase (st : St) (k : String) : St :=
  st.filter (fun p => decide (p.1 ≠ k))

theorem stGet_stSet (st : St) (k : String) (v : Val) (k' : String) :
    stGet (stSet st k v) k' = if k' = k then some v else stGet st k' := by
  induction st with
  | nil =>
      by_cases h : k' = k
      · simp [stGet, stSet, List.lookup, h]
      · simp [stGet, stSet, List.lookup, h, beq_false_of_ne h]
  | cons p rest ih =>
      obtain ⟨k₁, v₁⟩ := p
      by_cases h1 : k₁ = k
      · subst h1
        by_cases h : k' = k₁
        · simp [stGet, stSet, List.lookup, h]
        · simp [stGet, stSet, List.lookup, h, beq_false_of_ne h]
      · by_cases h : k' = k₁
        · have hkk : ¬k' = k := fun hc => h1 (h.symm.trans hc)
          simp [stGet, stSet, List.lookup, h1, h, hkk]
        · have hl : ∀ tail : St,
              List.lookup k' ((k₁, v₁) :: tail) = List.lookup k' tail := by
            intro tail
            simp [List.lookup, beq_false_of_ne h]
          simp only [stGet, stSet, if_neg h1] at ih ⊢
          simp only [hl]
          exact ih

theorem stGet_stErase (st : St) (k k' : String) :
    stGet (stErase st k) k' = if k' = k then none else stGet st k' := by
  induction st with
  | nil =>
      by_cases h : k' = k <;> simp [stGet, stErase, List.lookup, h]
  | cons p rest ih =>
      obtain ⟨k₁, v₁⟩ := p
      by_cases h1 : k₁ = k
      · subst h1
        have hdrop : stErase ((k₁, v₁) :: rest) k₁ = stErase rest k₁ := by
          simp [stErase]
        rw [show stGet (stErase ((k₁, v₁) :: rest) k₁) k'
              = stGet (stErase rest k₁) k' from by rw [hdrop]]
        rw [ih]
        by_cases h : k' = k₁
        · simp [h]
        · simp [stGet, List.lookup, h, beq_false_of_ne h]
      · have hkeep : stErase ((k₁, v₁) :: rest) k = (k₁, v₁) :: stErase rest k := by
          simp [stErase, h1]
        rw [show stGet (stErase ((k₁, v₁) :: rest) k) k'
              = stGet ((k₁, v₁) :: stErase rest k) k' from by rw [hkeep]]
        by_cases h : k' = k₁
        · have hkk : ¬k' = k := fun hc => h1 (h.symm.trans hc)
          simp [stGet, List.lookup, h, hkk, h1]
        · have hl : ∀ tail : St,
              List.lookup k' ((k₁, v₁) :: tail) = List.lookup k' tail := by
            intro tail
            simp [List.lookup, beq_false_of_ne h]
          show List.lookup k' ((k₁, v₁) :: stErase rest k)
            = if k' = k then none else List.lookup k' ((k₁, v₁) :: rest)
          simp only [hl]
          exact ih

/-! ## The dependency graph and forward reachability

`Simulator._downstream_nodes` in `engine/simulator.py`:

```python
seen, q = set(), [node]
while q:
    cur = q.pop()
    for nxt in self.node_graph.get(cur, []):
        if nxt not in seen:
            seen.add(nxt)
            q.append(nxt)
seen.discard(node)
return list(seen)
```

The worklist `q` is used as a LIFO stack (`append` / `pop` at the same
end); the embedding keeps the stack top at the head of the list, which
yields the identical pop order. -/

/-- The graph `{upstream: [downstreams]}` from `rules/node_graph.yaml`. -/
abbrev Graph := List (String × List String)

/-- Every node that occurs as an edge target anywhere in the graph. -/
def graphTargets : Graph → List String
  | [] => []
  | (_, vs) :: rest => vs ++ graphTargets rest

theorem mem_graphTargets_of_lookup :
    ∀ (g : Graph) (k : String) (l : List String),
      g.lookup k = some l → ∀ x ∈ l, x ∈ graphTargets g := by
  intro g
  induction g with
  | nil => intro k l h; simp [List.lookup] at h
  | cons p rest ih =>
      intro k l h x hx
      obtain ⟨k₁, v₁⟩ := p
      simp only [List.lookup] at h
      by_cases hk : (k == k₁) = true
      · rw [hk] at h
        simp only [Option.some.injEq] at h
        subst h
        exact List.mem_append.mpr (Or.inl hx)
      · rw [eq_false_of_ne_true hk] at h
        exact List.mem_append.mpr (Or.inr (ih k l h x hx))

/-- The inner `for nxt in …` loop of `_downstream_nodes`: push every
not-yet-seen neighbour onto the seen set and the stack. -/
def addNew : List String → List String → List String → List String × List String
  | seen, q, [] => (seen, q)
  | seen, q, n :: ns =>
      if n ∈ seen then addNew seen q ns else addNew (n :: seen) (n :: q) ns

theorem addNew_seen_subset :
    ∀ (ns seen q : List String), seen ⊆ (addNew seen q ns).1 := by
  intro ns
  induction ns with
  | nil => intro seen q; simp [addNew]
  | cons n ns ih =>
      intro seen q
      by_cases h : n ∈ seen
      · simpa [addNew, h] using ih seen q
      · simp only [addNew, if_neg h]
        exact fun x hx => ih (n :: seen) (n :: q) (List.mem_cons_of_mem n hx)

theorem addNew_eq_or_new :
    ∀ (ns seen q : List String),
      addNew seen q ns = (seen, q) ∨
      ∃ x, x ∈ ns ∧ x ∉ seen ∧ x ∈ (addNew seen q ns).1 := by
  intro ns
  induction ns with
  | nil => intro seen q; exact Or.inl rfl
  | cons n ns ih =>
      intro seen q
      by_cases h : n ∈ seen
      · rcases ih seen q with heq | ⟨x, hx, hxs, hxm⟩
        · exact Or.inl (by simpa [addNew, h] using heq)
        · exact Or.inr ⟨x, List.mem_cons_of_mem n hx, hxs, by simpa [addNew, h] using hxm⟩
      · refine Or.inr ⟨n, List.mem_cons_self n ns, h, ?_⟩
        simp only [addNew, if_neg h]
        exact addNew_seen_subset ns (n :: seen) (n :: q) (List.mem_cons_self n seen)

theorem card_sdiff_lt_of_new {T : Finset String} {seen seen' : List String} {x : String}
    (hsub : seen ⊆ seen') (hxT : x ∈ T) (hxs : x ∉ seen) (hxs' : x ∈ seen') :
    (T \ seen'.toFinset).card < (T \ seen.toFinset).card := by
  apply Finset.card_lt_card
  rw [Finset.ssubset_iff_of_subset]
  · exact ⟨x, by simp [Finset.mem_sdiff, List.mem_toFinset, hxT, hxs],
      by simp [Finset.mem_sdiff, List.mem_toFinset, hxs']⟩
  · intro y hy
    simp only [Finset.mem_sdiff, List.mem_toFinset] at hy ⊢
    exact ⟨hy.1, fun hc => hy.2 (hsub hc)⟩

/-- The `while q:` worklist loop of `_downstream_nodes`.  Total on every
finite graph, cyclic ones included: the seen set only grows inside the
edge-target universe of the graph, which bounds the recursion. -/
def bfsLoop (g : Graph) (seen q : List String) : List String :=
  match q with
  | [] => seen
  | cur :: rest =>
      bfsLoop g (addNew seen rest ((g.lookup cur).getD [])).1
        (addNew seen rest ((g.lookup cur).getD [])).2
termination_by (((graphTargets g).toFinset \ seen.toFinset).card, q.length)
decreasing_by
  rcases addNew_eq_or_new ((g.lookup cur).getD []) seen rest with heq | ⟨x, hxns, hxseen, hxmem⟩
  · rw [heq]
    exact Prod.Lex.right _ (Nat.lt_succ_self _)
  · refine Prod.Lex.left _ _ ?_
    refine card_sdiff_lt_of_new (addNew_seen_subset _ _ _) ?_ hxseen hxmem
    rw [List.mem_toFinset]
    rcases hg : g.lookup cur with hnone | l
    · rw [hg] at hxns; simp at hxns
    · rw [hg] at hxns
      exact mem_graphTargets_of_lookup g cur l hg x (by simpa using hxns)

/-- `Simulator._downstream_nodes`: all nodes transitively reachable from
`node` along graph edges, with `node` itself discarded at the end. -/
def _downstream_nodes (g : Graph) (node : String) : List String :=
  (bfsLoop g [] [node]).filter (fun n => decide (n ≠ node))

/-! ## List-backed set operations

Python `set` values are embedded as plain `List String` values used up to
duplication; where the source materialises a set — `len(s)`,
`sorted(s)`, `list(sorted(s))` — the embedding first removes duplicates
(keeping first occurrences) and, for `sorted`, orders by the code-point
order Python uses on strings.  These are hand-rolled so that every
definition evaluates inside the kernel. -/

/-- Code-point lexicographic comparison (Python `<=` on strings). -/
def charListLe : List Char → List Char → Bool
  | [], _ => true
  | _ :: _, [] => false
  | a :: as, b :: bs =>
      if a.toNat < b.toNat then true
      else if b.toNat < a.toNat then false
      else charListLe as bs

def strLe (a b : String) : Bool := charListLe a.toList b.toList

def insertStr (x : String) : List String → List String
  | [] => [x]
  | y :: ys => if strLe x y then x :: y :: ys else y :: insertStr x ys

/-- Insertion sort by `strLe`. -/
def sortStr : List String → List String
  | [] => []
  | x :: xs => insertStr x (sortStr xs)

/-- Remove duplicates, keeping first occurrences (`set(...)` contents). -/
def pyDedup : List String → List String
  | [] => []
  | x :: xs => x :: (pyDedup xs).filter (fun y => decide (y ≠ x))

/-- `sorted(s)` of a set given by a list of its elements. -/
def pySortedSet (l : List String) : List String := sortStr (pyDedup l)

/-- `len(s)` of a set given by a list of its elements. -/
def pyCard (l : List String) : Nat := (pyDedup l).length

/-! ## Simulator configuration

The `Simulator.__init__` constructor receives the four parsed
configuration mappings and prebuilds `_produces`, `_reports_fixed`,
`_aggregate_nodes` and `_rule_clears`.  The embedding stores the raw
association lists and exposes the prebuilt views as lookup functions. -/

structure SimConfig where
  /-- `nodes.yaml`: node name → its `produces` field list. -/
  nodesProduces : List (String × List String)
  /-- `node_graph.yaml` `edges`: upstream → direct downstream list. -/
  node_graph : Graph
  /-- `rollback_rules.yaml` `rules`: node → its `clears` field list. -/
  ruleClears : List (String × List String)
  /-- `rollback_rules.yaml` `reports_fixed`: the Always-Cleared Set. -/
  reports_fixed : List String
  /-- `rollback_policies.yaml` `aggregate_nodes`. -/
  aggregate_nodes : List String

/-- `self._produces.get(node, set())`: the write set of a node. -/
def _produces (cfg : SimConfig) (n : String) : List String :=
  pyDedup ((cfg.nodesProduces.lookup n).getD [])

/-- `self._reports_fixed`. -/
def _reports_fixed (cfg : SimConfig) : List String :=
  pyDedup cfg.reports_fixed

/-- `self._aggregate_nodes`. -/
def _aggregate_nodes (cfg : SimConfig) : List String :=
  pyDedup cfg.aggregate_nodes

/-- `self._rule_clears.get(n, {}).get("clears", [])`. -/
def _rule_clears (cfg : SimConfig) (n : String) : List String :=
  (cfg.ruleClears.lookup n).getD []

/-- `Simulator._write_set`: `list(self._produces.get(node, set()))`.
CPython leaves the order of `list(set)` unspecified; the embedding uses
the first-occurrence order of the configured `produces` list. -/
def _write_set (cfg : SimConfig) (node : String) : List String :=
  _produces cfg node

/-- The body of the `for n in targets:` loop of `_clears_full_downstream`:
a non-empty explicit `clears` entry wins, else the fallback floor is the
node's own `produces`. -/
def ruleFields (cfg : SimConfig) (n : String) : List String :=
  if (_rule_clears cfg n).isEmpty then _produces cfg n else _rule_clears cfg n

/-- `Simulator._clears_full_downstream`: union over `{node} ∪ downstream`
of each member's rule contribution, plus `reports_fixed`; returned as
`list(sorted(fields))`. -/
def _clears_full_downstream (cfg : SimConfig) (node : String) : List String :=
  pySortedSet
    (((node :: _downstream_nodes cfg.node_graph node).foldl
        (fun acc n => acc ++ ruleFields cfg n) []) ++ _reports_fixed cfg)

/-- `Simulator._clears_aggregate_only`: the node's own `produces`, plus
`produces` of every reachable aggregate node, plus `reports_fixed`;
returned as `list(sorted(fields))`. -/
def _clears_aggregate_only (cfg : SimConfig) (node : String) : List String :=
  pySortedSet
    (((_downstream_nodes cfg.node_graph node).foldl
        (fun acc d => if d ∈ _aggregate_nodes cfg then acc ++ _produces cfg d else acc)
        (_produces cfg node)) ++ _reports_fixed cfg)

/-- `Simulator._apply_clear`: `state.pop(f, None)` for each listed field. -/
def _apply_clear (state : St) (fields : List String) : St :=
  fields.foldl (fun st f => stErase st f) state

/-- The assignment `state[f] = payload.get(f, state.get(f, None))` in the
EXECUTE branch: payload value first, else the current state value, else
the explicit `None` marker. -/
def writeVal (payload : List (String × Val)) (state : St) (f : String) : Val :=
  ((payload.lookup f).orElse (fun _ => stGet state f)).getD .vnone

/-! ## Readiness validators (`engine/validators.py`)

Python-semantics helpers used by the validators: truthiness, the
`v not in (None, "", [], {})` presence test, `a or b` value selection,
`int(...)` conversion and `str(...)` rendering.  String-level operations
are hand-rolled over `List Char` so that every definition evaluates
inside the kernel. -/

/-- Python truthiness of a value. -/
def pyTruthy : Val → Bool
  | .vnone => false
  | .vbool b => b
  | .vint n => decide (n ≠ 0)
  | .vstr s => decide (s ≠ "")
  | .vlist xs => !xs.isEmpty
  | .vdict xs => !xs.isEmpty

/-- Python `a or b` on values: `a` if truthy, else `b`. -/
def pyOr (a b : Val) : Val := if pyTruthy a then a else b

/-- Membership in the tuple `(None, "", [], {})` used by `_present` and
`_has_per_nodule_tirads`. -/
def isBlank : Val → Bool
  | .vnone => true
  | .vstr s => s == ""
  | .vlist xs => xs.isEmpty
  | .vdict xs => xs.isEmpty
  | .vbool _ => false
  | .vint _ => false

/-- `d.get(k)` on a nested dict value: `None` when the key is missing. -/
def dictGet (d : List (String × Val)) (k : String) : Val :=
  (d.lookup k).getD .vnone

/-- Python `int(q)` as used (under `try`) by `_is_no_nodule`: ints pass
through, bools coerce, numeric strings (optionally signed, surrounding
blanks stripped) parse; anything else raises, modelled as `none`.
Exotic int-literal forms (underscore separators, non-ASCII digits) are
out of scope of the embedding. -/
def parseNatDigits (l : List Char) : Option Nat :=
  if l.isEmpty then none
  else if l.all Char.isDigit then
    some (l.foldl (fun acc c => acc * 10 + (c.toNat - '0'.toNat)) 0)
  else none

/-- The six characters Python `\s` / `str.strip()` treat as blank. -/
def pySpace (c : Char) : Bool :=
  c == ' ' || c == '\t' || c == '\n' || c == '\x0d' || c == '\x0b' || c == '\x0c'

/-- `str.strip()`. -/
def pyStrip (l : List Char) : List Char :=
  ((l.dropWhile pySpace).reverse.dropWhile pySpace).reverse

def pyIntOfString (s : String) : Option Int :=
  match pyStrip s.toList with
  | '-' :: ds => (parseNatDigits ds).map (fun n => -(n : Int))
  | '+' :: ds => (parseNatDigits ds).map (fun n => (n : Int))
  | ds => (parseNatDigits ds).map (fun n => (n : Int))

def pyInt : Val → Option Int
  | .vint n => some n
  | .vbool b => some (if b then 1 else 0)
  | .vstr s => pyIntOfString s
  | _ => none

/-- Python `str(v)` for the values the validators pass to `_rank`.
Container reprs are abbreviated: the exact repr of a list/dict is
irrelevant here because no bracket-initial string matches the anchored
TI-RADS pattern or occurs in the order table, exactly as in python. -/
def pyStr : Val → String
  | .vnone => "None"
  | .vbool b => if b then "True" else "False"
  | .vint n => toString n
  | .vstr s => s
  | .vlist _ => "[...]"
  | .vdict _ => "[dict]"

/-- `KEY_ALIASES`: canonical field name → ordered legacy alternates. -/
def KEY_ALIASES : String → List String
  | "state.tirads_score" =>
      ["state.ti_rads_score", "ti_rads_score",
       "state.thyroid_nodules_detail.nodules.ti_rads_score_overall"]
  | "state.tirads_label" => ["state.ti_rads_overall", "ti_rads_overall"]
  | "state.conclusion_text" => ["reports.conclusion_text"]
  | "state.recommendation" => ["reports.recommendation", "reports.follow_up_plan"]
  | "state.thyroid_nodules_quantity" => ["thyroid_nodules_quantity"]
  | _ => []

/-- The `for alt in KEY_ALIASES.get(key, [])` loop of `_get`: first alias
key found in the state wins; fall through to `None`. -/
def aliasLoop (state : St) : List String → Val
  | [] => .vnone
  | alt :: rest =>
      match state.lookup alt with
      | some v => v
      | none => aliasLoop state rest

/-- `_get`: the main key if it is in the state, else the alias loop. -/
def _get (state : St) (key : String) : Val :=
  match state.lookup key with
  | some v => v
  | none => aliasLoop state (KEY_ALIASES key)

/-- `_present`: the looked-up value is not in `(None, "", [], {})`. -/
def _present (state : St) (key : String) : Bool :=
  !(isBlank (_get state key))

/-- `REQUIRED_FOR_REPORT`. -/
def REQUIRED_FOR_REPORT : List String :=
  ["state.conclusion_text", "state.recommendation"]

/-- `MUTEX_GROUPS`. -/
def MUTEX_GROUPS : List (List String) :=
  [["state.conclusion_benign", "state.conclusion_malignant"],
   ["state.func_hyper", "state.func_hypo"]]

/-- `_is_no_nodule`: the quantity field converts to the integer 0. -/
def _is_no_nodule (state : St) : Bool :=
  match pyInt (_get state "state.thyroid_nodules_quantity") with
  | some n => decide (n = 0)
  | none => false

/-- The candidate container paths of `_has_per_nodule_tirads` (`None`
head means the state dict itself). -/
def nodCandidates : List (Option String × String) :=
  [(some "state.thyroid_nodules_detail", "nodules"),
   (some "thyroid_nodules_detail", "nodules"),
   (some "state", "nodules"),
   (some "ultrasound", "nodules"),
   (none, "nodules")]

/-- One candidate of `_has_per_nodule_tirads`: resolve the container, skip
it unless it is a dict, take its `nodules` entry (`or []`), skip unless a
list. -/
def nodsOf (state : St) (cand : Option String × String) : List Val :=
  let container := match cand.1 with
    | some k => (state.lookup k).getD .vnone
    | none => .vdict state
  match container with
  | .vdict d =>
      match pyOr (dictGet d cand.2) (.vlist []) with
      | .vlist xs => xs
      | _ => []
  | _ => []

/-- The per-nodule check of the inner loop: the `or`-chain over the four
per-nodule key spellings, then `s not in (None, "", [], {})`. -/
def nodeHasTirads : Val → Bool
  | .vdict d =>
      !(isBlank (pyOr (dictGet d "ti_rads_score")
        (pyOr (dictGet d "tirads_score")
          (pyOr (dictGet d "ti_rads") (dictGet d "tirads")))))
  | _ => false

/-- `_has_per_nodule_tirads`. -/
def _has_per_nodule_tirads (state : St) : Bool :=
  nodCandidates.any (fun c => (nodsOf state c).any nodeHasTirads)

/-- `_TIRADS_ORDER` keyed on the character list of the key. -/
def _TIRADS_ORDER : List Char → Option Nat
  | ['1'] => some 1
  | ['2'] => some 2
  | ['3'] => some 3
  | ['4', 'A'] => some 4
  | ['4', 'B'] => some 5
  | ['4', 'C'] => some 6
  | ['5'] => some 7
  | ['T', 'R', '1'] => some 1
  | ['T', 'R', '2'] => some 2
  | ['T', 'R', '3'] => some 3
  | ['T', 'R', '4', 'A'] => some 4
  | ['T', 'R', '4', 'B'] => some 5
  | ['T', 'R', '4', 'C'] => some 6
  | ['T', 'R', '5'] => some 7
  | _ => none

/-- Strip an exact literal character sequence. -/
def stripLit : List Char → List Char → Option (List Char)
  | [], rest => some rest
  | _ :: _, [] => none
  | c :: cs, r :: rest => if r = c then stripLit cs rest else none

/-- The optional group `(?:TI-?RADS\s*)?` of the `_rank` pattern. -/
def stripTIRADS (l : List Char) : Option (List Char) :=
  match stripLit ['T', 'I'] l with
  | none => none
  | some l1 =>
      let l2 := match stripLit ['-'] l1 with
        | some x => x
        | none => l1
      match stripLit ['R', 'A', 'D', 'S'] l2 with
      | none => none
      | some l3 => some (l3.dropWhile pySpace)

/-- The group `([1-5])` of the `_rank` pattern. -/
def parseDigit : List Char → Option (Char × List Char)
  | [] => none
  | c :: rest =>
      if c == '1' || c == '2' || c == '3' || c == '4' || c == '5'
      then some (c, rest) else none

/-- The group `([ABC])?` of the `_rank` pattern. -/
def parseSuffix : List Char → Option Char × List Char
  | [] => (none, [])
  | c :: rest =>
      if c == 'A' || c == 'B' || c == 'C' then (some c, rest) else (none, c :: rest)

/-- The anchored pattern `^(?:TI-?RADS\s*)?(TR)?\s*([1-5])\s*([ABC])?$` of
`_rank`, as a deterministic parser (the pattern admits no backtracking:
each optional piece starts with a character no later piece can match),
returning the `_TIRADS_ORDER` key built from the match groups. -/
def rankViaRegex (l : List Char) : Option (List Char) :=
  let afterPre := match stripTIRADS l with
    | some r => r
    | none => l
  let tr := match stripLit ['T', 'R'] afterPre with
    | some r => (true, r)
    | none => (false, afterPre)
  match parseDigit (tr.2.dropWhile pySpace) with
  | none => none
  | some (d, rest) =>
      let suf := parseSuffix (rest.dropWhile pySpace)
      if suf.2.isEmpty then
        let base := d :: (match suf.1 with | some c => [c] | none => [])
        some (if tr.1 then 'T' :: 'R' :: base else base)
      else none

/-- `_rank`: uppercase and strip the rendered value, try the pattern and
look the key up in the order table, else look the whole string up. -/
def _rank (val : String) : Option Nat :=
  let s := pyStrip (val.toList.map Char.toUpper)
  match rankViaRegex s with
  | some key => _TIRADS_ORDER key
  | none => _TIRADS_ORDER s

/-- `True` exactly on string values (`isinstance(v, str)`). -/
def isVstr : Val → Bool
  | .vstr _ => true
  | _ => false

/-- Python list display of a list of strings (element quoting elided;
nothing in the development depends on the exact event text). -/
def renderList (xs : List String) : String :=
  "[" ++ String.intercalate ", " xs ++ "]"

/-- The score/label consistency block, written once here and used by both
validators (the python source repeats it verbatim in both). -/
def tiradsConsistencyWarnings (state : St) : List String :=
  let score := _get state "state.tirads_score"
  let label := _get state "state.tirads_label"
  let r_score := match score with | .vnone => none | _ => _rank (pyStr score)
  let r_label := match label with | .vnone => none | _ => _rank (pyStr label)
  (if r_score.isNone && isVstr score then ["Non-standard tirads_score; check format."] else [])
  ++ (if r_label.isNone && isVstr label then ["Non-standard tirads_label; check format."] else [])
  ++ (match r_score, r_label with
      | some a, some b =>
          if a ≠ b then ["TI-RADS label not aligned with score (ranks differ)."] else []
      | _, _ => [])

structure ValidateResult where
  passed : Bool
  errors : List String
  warnings : List String

/-- `validate_state_for_report`: required fields, the nodule branch, the
mutex groups, and the consistency warnings. -/
def validate_state_for_report (state : St) : ValidateResult :=
  let reqErrors := (REQUIRED_FOR_REPORT.filter (fun k => !(_present state k))).map
      (fun k => "Missing required: " ++ k)
  let branch : List String × List String :=
    if _is_no_nodule state then
      if !(_present state "state.thyroid_echo"
            || _present state "state.diffuse_lesion_evaluation_result")
      then ([], ["No nodule: consider adding gland echo or diffuse evaluation."])
      else ([], [])
    else
      let overall_ok := _present state "state.tirads_score" || _present state "state.tirads_label"
      let per_nodule_ok := _has_per_nodule_tirads state
      if !(overall_ok || per_nodule_ok) then
        (["Need TI-RADS evidence: either overall (state.tirads_*) or per-nodule ti_rads_score."],
         [])
      else if per_nodule_ok && !overall_ok then
        ([], ["Per-nodule TI-RADS only (no overall grading)."])
      else ([], [])
  let mutexErrors := MUTEX_GROUPS.filterMap (fun group =>
      let pres := group.filter (fun k => _present state k)
      if pres.length > 1 then some ("Mutually exclusive fields present: " ++ renderList pres)
      else none)
  let consistency :=
    if _present state "state.tirads_score" && _present state "state.tirads_label" then
      tiradsConsistencyWarnings state
    else []
  let errors := reqErrors ++ branch.1 ++ mutexErrors
  { passed := errors.isEmpty, errors := errors, warnings := branch.2 ++ consistency }

/-- `validate_node_ready`: the VIS_REPORT gate, the TI-RADS gate, and the
default pass-through for every other node. -/
def validate_node_ready (node : String) (state : St) : ValidateResult :=
  if node = "VIS_REPORT" then validate_state_for_report state
  else if node = "TI-RADS" then
    if _is_no_nodule state then
      { passed := true, errors := [],
        warnings := ["TI-RADS skipped: no discrete thyroid nodule."] }
    else
      let overall_ok := _present state "state.tirads_score" || _present state "state.tirads_label"
      let per_nodule_ok := _has_per_nodule_tirads state
      let main : List String × List String :=
        if !(overall_ok || per_nodule_ok) then
          (["Need TI-RADS: overall (state.tirads_*) or per-nodule ti_rads_score."], [])
        else if per_nodule_ok && !overall_ok then
          ([], ["Per-nodule TI-RADS only (no overall grading)."])
        else ([], [])
      let consistency :=
        if overall_ok && (_present state "state.tirads_score"
            && _present state "state.tirads_label") then
          tiradsConsistencyWarnings state
        else []
      { passed := main.1.isEmpty, errors := main.1, warnings := main.2 ++ consistency }
  else { passed := true, errors := [], warnings := [] }

/-! ## The step transition (`Simulator.step`) -/

/-- A schema-validated action record.  Optional python keys are `Option`s
with the same defaults the source applies via `.get`: a missing `policy`
defaults to `"full_downstream"`, a missing `include_reports_fixed` to
`True`, and missing list-valued keys to `[]`. -/
inductive Engine.Action where
  | EXECUTE (node : String) (payload : List (String × Val))
  | ROLLBACK (node : String) (policy : Option String)
      (include_nodes : List String) (exclude_nodes : List String)
      (fields : List String) (include_reports_fixed : Option Bool)
  | CLARIFY (slot : String)
  | GENERATE_REPORT

/-- The result record of `step`. -/
structure StepResult where
  ok : Bool
  updated_state : St
  executed_nodes : List String
  events : List String

/-- `set(state.get("_pending_slots", []))`: the slot names currently under
the reserved key (the CLARIFY branch only ever stores a string list
there; non-string entries are ignored). -/
def pendingSlots (state : St) : List String :=
  match stGet state "_pending_slots" with
  | some (.vlist xs) => xs.filterMap (fun v => match v with | .vstr s => some s | _ => none)
  | _ => []

/-- `Simulator.step`: dispatch on the action type.  Mutations of `state`
and `executed_nodes` are returned in the result record. -/
def Simulator.step (cfg : SimConfig) (state : St) (executed_nodes : List String)
    (action : Engine.Action) : StepResult :=
  match action with
  | .EXECUTE node payload =>
      let ws := _write_set cfg node
      let state' := ws.foldl (fun s f => stSet s f (writeVal payload s f)) state
      let executed' :=
        if node ∈ executed_nodes then executed_nodes else executed_nodes ++ [node]
      { ok := true, updated_state := state', executed_nodes := executed',
        events := ["EXECUTE " ++ node ++ ": wrote " ++ toString ws.length ++ " fields"] }
  | .ROLLBACK node policyOpt include_nodes exclude_nodes fieldsArg include_reports_fixed =>
      let policy := policyOpt.getD "full_downstream"
      if policy = "aggregate_only" then
        let fields := _clears_aggregate_only cfg node
        let state' := _apply_clear state fields
        let rm_nodes : List String :=
          node :: (_downstream_nodes cfg.node_graph node).filter
            (fun d => decide (d ∈ _aggregate_nodes cfg))
        let executed' := executed_nodes.filter (fun n => decide (n ∉ rm_nodes))
        { ok := true, updated_state := state', executed_nodes := executed',
          events := ["ROLLBACK " ++ node ++ " aggregate_only: cleared "
            ++ toString fields.length ++ " fields; removed nodes="
            ++ renderList (pySortedSet rm_nodes)] }
      else if policy = "full_downstream" then
        let fields := _clears_full_downstream cfg node
        let affected_nodes : List String :=
          node :: _downstream_nodes cfg.node_graph node
        let state' := _apply_clear state fields
        let executed' := executed_nodes.filter (fun n => decide (n ∉ affected_nodes))
        { ok := true, updated_state := state', executed_nodes := executed',
          events := ["ROLLBACK " ++ node ++ " full_downstream: cleared "
            ++ toString fields.length ++ " fields; removed nodes="
            ++ renderList (pySortedSet affected_nodes)] }
      else if policy = "custom" then
        let fields : List String :=
          include_nodes.foldl (fun acc n => acc ++ _produces cfg n) fieldsArg
        let fields' :=
          if include_reports_fixed.getD true then fields ++ _reports_fixed cfg else fields
        let state' := _apply_clear state (pySortedSet fields')
        let executed' :=
          if include_nodes.isEmpty
          then executed_nodes
          else executed_nodes.filter (fun n => decide (n ∉ include_nodes))
        { ok := true, updated_state := state', executed_nodes := executed',
          events := ["ROLLBACK " ++ node ++ " custom: cleared " ++ toString (pyCard fields')
            ++ " fields; include_nodes=" ++ renderList (pySortedSet include_nodes)
            ++ " exclude_nodes=" ++ renderList (pySortedSet exclude_nodes)] }
      else
        { ok := false, updated_state := state, executed_nodes := executed_nodes,
          events := ["Unknown policy " ++ policy] }
  | .CLARIFY slot =>
      let pending := pySortedSet (slot :: pendingSlots state)
      { ok := true,
        updated_state := stSet state "_pending_slots" (.vlist (pending.map .vstr)),
        executed_nodes := executed_nodes,
        events := ["CLARIFY " ++ slot] }
  | .GENERATE_REPORT =>
      let tri := validate_node_ready "TI-RADS" state
      let vis := validate_node_ready "VIS_REPORT" state
      let passed := tri.passed && vis.passed
      let errs := tri.errors.map (fun e => "TI-RADS: " ++ e)
        ++ vis.errors.map (fun e => "VIS_REPORT: " ++ e)
      let warns := tri.warnings.map (fun w => "TI-RADS: " ++ w)
        ++ vis.warnings.map (fun w => "VIS_REPORT: " ++ w)
      { ok := passed, updated_state := state, executed_nodes := executed_nodes,
        events := ["GENERATE_REPORT validated: passed="
            ++ (if passed then "True" else "False")]
          ++ errs.map (fun m => "ERROR: " ++ m)
          ++ warns.map (fun m => "WARNING: " ++ m) }

/-! ## Reference definitions and concrete fixtures -/

/-- First key of `keys` that OCCURS in the state, its stored value
returned even when blank; `None` when no key occurs.  This is the
amended description of the alias lookup, proved equal to `_get` below. -/
def firstFoundKey (state : St) : List String → Val
  | [] => .vnone
  | k :: ks =>
      match state.lookup k with
      | some v => v
      | none => firstFoundKey state ks

/-- First alias whose VALUE is present (not blank). -/
def firstPresentAlt (state : St) : List String → Val
  | [] => .vnone
  | a :: rest =>
      if !(isBlank (dictGet state a)) then dictGet state a
      else firstPresentAlt state rest

/-- The alias lookup exactly as the specification sentence words it, for
comparison with the implemented `_get`: the canonical value when the
canonical field is present (not absent and not empty), otherwise the
value of the first alternate name that is present, otherwise absent. -/
def specAliasGet (state : St) (key : String) : Val :=
  if !(isBlank (dictGet state key)) then dictGet state key
  else firstPresentAlt state (KEY_ALIASES key)

/-- Modelled from the spec: the configuration files (`mappings/nodes.yaml`,
`rules/*.yaml`) are not part of the engine sources.  The spec's §3
("absent entry falls back to that node's own produces set as a floor")
and the repository's configuration validator (`scripts/validate_rules.py`,
semantic check (b): `clears[N] ⊇ produces[N] ∪ produces[Reach(N)] ∪
reports_fixed` for every node) keep every non-empty `clears` entry a
superset of that node's own `produces` set.  This predicate is the
per-node consequence assumed of a validated registry. -/
def RulesCoherent (cfg : SimConfig) : Prop :=
  ∀ n : String, _rule_clears cfg n ≠ [] →
    ∀ f ∈ _produces cfg n, f ∈ _rule_clears cfg n

/-- A small registry in the shape of Scenario B of the spec: `X` feeds
`Y` and `Z`, `Z` is the aggregate node, and the full-downstream `clears`
entry for `X` covers everything downstream. -/
def exCfg : SimConfig :=
  { nodesProduces := [("X", ["x1", "x2"]), ("Y", ["y1"]), ("Z", ["z1"])]
  , node_graph := [("X", ["Y", "Z"])]
  , ruleClears := [("X", ["x1", "x2", "y1", "z1", "rep1"])]
  , reports_fixed := ["rep1"]
  , aggregate_nodes := ["Z"] }

/-- The one-node registry of Scenario A: `X` produces `{a, b}`. -/
def exCfgA : SimConfig :=
  { nodesProduces := [("X", ["a", "b"])]
  , node_graph := []
  , ruleClears := []
  , reports_fixed := []
  , aggregate_nodes := [] }

/-- A state on which both report gates pass: no discrete nodule, with
conclusion and recommendation filled in. -/
def exStateOk : St :=
  [("state.thyroid_nodules_quantity", .vint 0),
   ("state.conclusion_text", .vstr "benign pattern"),
   ("state.recommendation", .vstr "routine follow-up"),
   ("state.thyroid_echo", .vstr "homogeneous")]

/-- A state whose canonical TI-RADS score key holds an empty string while
its first alias key holds a real value. -/
def exStateAlias : St :=
  [("state.tirads_score", .vstr ""), ("state.ti_rads_score", .vstr "5")]

/-! ## Helper lemmas -/

theorem mem_insertStr (x : String) :
    ∀ (l : List String) (a : String), a ∈ insertStr x l ↔ a = x ∨ a ∈ l := by
  intro l
  induction l with
  | nil => intro a; simp [insertStr]
  | cons y ys ih =>
      intro a
      by_cases h : strLe x y
      · simp [insertStr, h]
      · simp [insertStr, h, ih]
        tauto

theorem mem_sortStr : ∀ (l : List String) (a : String), a ∈ sortStr l ↔ a ∈ l := by
  intro l
  induction l with
  | nil => intro a; simp [sortStr]
  | cons x xs ih => intro a; simp [sortStr, mem_insertStr, ih]

theorem mem_pyDedup : ∀ (l : List String) (a : String), a ∈ pyDedup l ↔ a ∈ l := by
  intro l
  induction l with
  | nil => intro a; simp [pyDedup]
  | cons x xs ih =>
      intro a
      simp only [pyDedup, List.mem_cons, List.mem_filter, ih]
      by_cases h : a = x
      · simp [h]
      · simp [h]

theorem mem_pySortedSet (l : List String) (a : String) :
    a ∈ pySortedSet l ↔ a ∈ l := by
  rw [pySortedSet, mem_sortStr, mem_pyDedup]

theorem pyDedup_nodup : ∀ l : List String, (pyDedup l).Nodup := by
  intro l
  induction l with
  | nil => simp [pyDedup]
  | cons x xs ih =>
      rw [pyDedup, List.nodup_cons]
      constructor
      · intro hmem
        have := (List.mem_filter.mp hmem).2
        simp at this
      · exact ih.filter _

theorem mem_foldl_append {β : Type} (f : β → List String) :
    ∀ (l : List β) (init : List String) (x : String),
      x ∈ l.foldl (fun acc n => acc ++ f n) init ↔ x ∈ init ∨ ∃ n ∈ l, x ∈ f n := by
  intro l
  induction l with
  | nil => intro init x; simp
  | cons b bs ih =>
      intro init x
      rw [List.foldl_cons, ih]
      simp [List.mem_append, or_assoc]

theorem mem_foldl_append_ite (P : String → Prop) [DecidablePred P] (f : String → List String) :
    ∀ (l : List String) (init : List String) (x : String),
      x ∈ l.foldl (fun acc d => if P d then acc ++ f d else acc) init ↔
        x ∈ init ∨ ∃ d ∈ l, P d ∧ x ∈ f d := by
  intro l
  induction l with
  | nil => intro init x; simp
  | cons b bs ih =>
      intro init x
      rw [List.foldl_cons]
      by_cases hP : P b
      · rw [if_pos hP, ih]
        simp only [List.mem_append, List.mem_cons]
        constructor
        · rintro ((h | h) | ⟨d, hd, hPd, hx⟩)
          · exact Or.inl h
          · exact Or.inr ⟨b, Or.inl rfl, hP, h⟩
          · exact Or.inr ⟨d, Or.inr hd, hPd, hx⟩
        · rintro (h | ⟨d, (rfl | hd), hPd, hx⟩)
          · exact Or.inl (Or.inl h)
          · exact Or.inl (Or.inr hx)
          · exact Or.inr ⟨d, hd, hPd, hx⟩
      · rw [if_neg hP, ih]
        constructor
        · rintro (h | ⟨d, hd, hPd, hx⟩)
          · exact Or.inl h
          · exact Or.inr ⟨d, List.mem_cons_of_mem b hd, hPd, hx⟩
        · rintro (h | ⟨d, hd, hPd, hx⟩)
          · exact Or.inl h
          · rcases List.mem_cons.mp hd with rfl | hd
            · exact absurd hPd hP
            · exact Or.inr ⟨d, hd, hPd, hx⟩

theorem mem_clears_full_downstream (cfg : SimConfig) (node x : String) :
    x ∈ _clears_full_downstream cfg node ↔
      (∃ n ∈ node :: _downstream_nodes cfg.node_graph node, x ∈ ruleFields cfg n) ∨
      x ∈ _reports_fixed cfg := by
  rw [_clears_full_downstream, mem_pySortedSet, List.mem_append, mem_foldl_append]
  simp

theorem mem_clears_aggregate_only (cfg : SimConfig) (node x : String) :
    x ∈ _clears_aggregate_only cfg node ↔
      (x ∈ _produces cfg node ∨
       ∃ d ∈ _downstream_nodes cfg.node_graph node,
         d ∈ _aggregate_nodes cfg ∧ x ∈ _produces cfg d) ∨
      x ∈ _reports_fixed cfg := by
  rw [_clears_aggregate_only, mem_pySortedSet, List.mem_append,
    mem_foldl_append_ite (fun d => d ∈ _aggregate_nodes cfg) (_produces cfg)]

theorem stGet_apply_clear :
    ∀ (fields : List String) (state : St) (f : String),
      stGet (_apply_clear state fields) f = if f ∈ fields then none else stGet state f := by
  intro fields
  induction fields with
  | nil => intro state f; simp [_apply_clear]
  | cons g gs ih =>
      intro state f
      show stGet (_apply_clear (stErase state g) gs) f = _
      rw [ih]
      by_cases h1 : f ∈ gs
      · simp [h1]
      · rw [stGet_stErase]
        by_cases h2 : f = g <;> simp [h1, h2]

theorem stGet_foldWrite (payload : List (String × Val)) :
    ∀ (ws : List String) (state : St) (g : String), ws.Nodup →
      stGet (ws.foldl (fun s f => stSet s f (writeVal payload s f)) state) g =
        if g ∈ ws then some (writeVal payload state g) else stGet state g := by
  intro ws
  induction ws with
  | nil => intro state g _; simp
  | cons f rest ih =>
      intro state g hnd
      obtain ⟨hf, hrest⟩ := List.nodup_cons.mp hnd
      show stGet (rest.foldl _ (stSet state f (writeVal payload state f))) g = _
      rw [ih _ g hrest]
      by_cases h1 : g ∈ rest
      · have hgf : g ≠ f := fun hc => hf (hc ▸ h1)
        rw [if_pos h1, if_pos (List.mem_cons_of_mem f h1)]
        have hsame : writeVal payload (stSet state f (writeVal payload state f)) g
            = writeVal payload state g := by
          unfold writeVal
          rw [stGet_stSet]
          simp [hgf]
        rw [hsame]
      · by_cases h2 : g = f
        · subst h2
          rw [if_neg h1, if_pos (List.mem_cons_self g rest), stGet_stSet]
          simp
        · rw [if_neg h1, if_neg (by simp [List.mem_cons, h1, h2]), stGet_stSet]
          simp [h2]

theorem validate_passed_iff_no_errors (node : String) (state : St) :
    (validate_node_ready node state).passed
      = (validate_node_ready node state).errors.isEmpty := by
  by_cases h1 : node = "VIS_REPORT"
  · simp [validate_node_ready, h1, validate_state_for_report]
  · by_cases h2 : node = "TI-RADS"
    · by_cases h3 : _is_no_nodule state
      · simp [validate_node_ready, h1, h2, h3]
      · simp [validate_node_ready, h1, h2, h3]
    · simp [validate_node_ready, h1, h2]

theorem lookup_mem {β : Type} :
    ∀ (l : List (String × β)) (k : String) (v : β),
      l.lookup k = some v → (k, v) ∈ l := by
  intro l
  induction l with
  | nil => intro k v h; simp [List.lookup] at h
  | cons p rest ih =>
      intro k v h
      obtain ⟨k₁, v₁⟩ := p
      simp only [List.lookup] at h
      by_cases hk : (k == k₁) = true
      · rw [hk] at h
        simp only [Option.some.injEq] at h
        subst h
        have : k = k₁ := eq_of_beq hk
        subst this
        exact List.mem_cons_self _ _
      · rw [eq_false_of_ne_true hk] at h
        exact List.mem_cons_of_mem _ (ih k v h)

theorem rulesCoherent_of_all (cfg : SimConfig)
    (h : cfg.ruleClears.all
      (fun p => p.2.isEmpty || decide (∀ f ∈ _produces cfg p.1, f ∈ p.2)) = true) :
    RulesCoherent cfg := by
  intro n hne f hf
  rcases hl : cfg.ruleClears.lookup n with _ | l
  · exact absurd (by simp [_rule_clears, hl]) hne
  · have hmem := lookup_mem cfg.ruleClears n l hl
    have := List.all_eq_true.mp h _ hmem
    rw [_rule_clears, hl] at hne ⊢
    simp only [Option.getD_some] at hne ⊢
    rcases Bool.or_eq_true_iff.mp this with hemp | hsub
    · exact absurd (List.isEmpty_iff.mp hemp) hne
    · exact of_decide_eq_true hsub f hf

theorem aliasLoop_eq_firstFoundKey (state : St) :
    ∀ l : List String, aliasLoop state l = firstFoundKey state l := by
  intro l
  induction l with
  | nil => rfl
  | cons a rest ih =>
      unfold aliasLoop firstFoundKey
      cases state.lookup a
      · simpa using ih
      · rfl

theorem exCfg_downstream : _downstream_nodes exCfg.node_graph "X" = ["Z", "Y"] := by
  simp [_downstream_nodes, bfsLoop, addNew, exCfg, List.lookup]

theorem exCfg_clears_aggregate :
    _clears_aggregate_only exCfg "X" = ["rep1", "x1", "x2", "z1"] := by
  rw [_clears_aggregate_only, exCfg_downstream]
  rfl

theorem write_set_nodup (cfg : SimConfig) (node : String) :
    (_write_set cfg node).Nodup :=
  pyDedup_nodup _

/-! ## The claims -/

/-- C9: `_downstream_nodes` terminates on every finite graph — cyclic
ones included; its totality in Lean is exactly the termination argument
of `bfsLoop`, whose well-founded measure shrinks because the seen set
deduplicates the traversal inside the finite edge-target universe — and
its result never contains the starting node itself. -/
theorem C9_downstream_excludes_self (g : Graph) (node : String) :
    node ∉ _downstream_nodes g node := by
  intro h
  have := (List.mem_filter.mp h).2
  simp at this

/-- C4: a ROLLBACK whose policy is none of `full_downstream`,
`aggregate_only`, `custom` returns `ok=false` with the single event
`"Unknown policy <name>"`, and state and history are returned exactly as
passed in — no clearing happens before the policy check. -/
theorem C4_unknown_policy (cfg : SimConfig) (state : St) (executed : List String)
    (node p : String) (incl excl flds : List String) (irf : Option Bool)
    (h1 : p ≠ "aggregate_only") (h2 : p ≠ "full_downstream") (h3 : p ≠ "custom") :
    Simulator.step cfg state executed (.ROLLBACK node (some p) incl excl flds irf) =
      { ok := false, updated_state := state, executed_nodes := executed,
        events := ["Unknown policy " ++ p] } := by
  simp [Simulator.step, h1, h2, h3]

/-- C4 witness at Scenario D's `policy="nonexistent"`. -/
theorem C4_witness :
    Simulator.step exCfg [("x1", .vstr "v")] ["X"]
        (.ROLLBACK "X" (some "nonexistent") [] [] [] none) =
      { ok := false, updated_state := [("x1", .vstr "v")], executed_nodes := ["X"],
        events := ["Unknown policy nonexistent"] } :=
  C4_unknown_policy exCfg _ _ "X" "nonexistent" [] [] [] none
    (by decide) (by decide) (by decide)

/-- C10: a ROLLBACK action that omits `policy` entirely does not fail:
`step` fills in the `"full_downstream"` default, succeeds, clears
`_clears_full_downstream node` and removes the node together with its
downstream closure from the history. -/
theorem C10_missing_policy_defaults (cfg : SimConfig) (state : St)
    (executed : List String) (node : String) (incl excl flds : List String)
    (irf : Option Bool) :
    Simulator.step cfg state executed (.ROLLBACK node none incl excl flds irf) =
      Simulator.step cfg state executed
        (.ROLLBACK node (some "full_downstream") incl excl flds irf) ∧
    (Simulator.step cfg state executed (.ROLLBACK node none incl excl flds irf)).ok = true ∧
    (Simulator.step cfg state executed (.ROLLBACK node none incl excl flds irf)).updated_state
      = _apply_clear state (_clears_full_downstream cfg node) ∧
    (Simulator.step cfg state executed (.ROLLBACK node none incl excl flds irf)).executed_nodes
      = executed.filter
          (fun n => decide (n ∉ node :: _downstream_nodes cfg.node_graph node)) :=
  ⟨rfl, rfl, rfl, rfl⟩

/-- C2: GENERATE_REPORT mutates neither state nor history; `ok` is true
iff both the TI-RADS gate and the VIS_REPORT gate pass (so either single
failing gate forces `ok=false`); and since each gate's `passed` flag
equals "its error list is empty", warnings alone never make `ok` false. -/
theorem C2_generate_report_gating (cfg : SimConfig) (state : St) (executed : List String) :
    (Simulator.step cfg state executed .GENERATE_REPORT).updated_state = state ∧
    (Simulator.step cfg state executed .GENERATE_REPORT).executed_nodes = executed ∧
    ((Simulator.step cfg state executed .GENERATE_REPORT).ok = true ↔
      ((validate_node_ready "TI-RADS" state).passed = true ∧
       (validate_node_ready "VIS_REPORT" state).passed = true)) ∧
    ((validate_node_ready "TI-RADS" state).errors = [] →
     (validate_node_ready "VIS_REPORT" state).errors = [] →
     (Simulator.step cfg state executed .GENERATE_REPORT).ok = true) := by
  refine ⟨rfl, rfl, ?_, ?_⟩
  · simp [Simulator.step, Bool.and_eq_true]
  · intro h1 h2
    simp [Simulator.step, Bool.and_eq_true, validate_passed_iff_no_errors, h1, h2]

/-- C2 witness: on `exStateOk` both gates pass and GENERATE_REPORT
succeeds, leaving the state untouched. -/
theorem C2_witness :
    (Simulator.step exCfg exStateOk ["X"] .GENERATE_REPORT).ok = true ∧
    (Simulator.step exCfg exStateOk ["X"] .GENERATE_REPORT).updated_state = exStateOk := by
  have h := C2_generate_report_gating exCfg exStateOk ["X"]
  exact ⟨h.2.2.2 (by decide) (by decide), h.1⟩

/-- C1: over a coherent registry (see `RulesCoherent`), the
full-downstream clear set of every node `N` contains `produces(N)`,
contains `produces(D)` for every `D` transitively reachable from `N`,
and contains the Always-Cleared Set `reports_fixed`. -/
theorem C1_full_downstream_superset (cfg : SimConfig) (hcoh : RulesCoherent cfg)
    (node : String) :
    (∀ f ∈ _produces cfg node, f ∈ _clears_full_downstream cfg node) ∧
    (∀ D ∈ _downstream_nodes cfg.node_graph node,
       ∀ f ∈ _produces cfg D, f ∈ _clears_full_downstream cfg node) ∧
    (∀ f ∈ _reports_fixed cfg, f ∈ _clears_full_downstream cfg node) := by
  have hrf : ∀ n, ∀ f ∈ _produces cfg n, f ∈ ruleFields cfg n := by
    intro n f hf
    by_cases h : (_rule_clears cfg n).isEmpty
    · simpa [ruleFields, h] using hf
    · rw [ruleFields, if_neg h]
      exact hcoh n (by simpa [List.isEmpty_iff] using h) f hf
  refine ⟨?_, ?_, ?_⟩
  · intro f hf
    exact (mem_clears_full_downstream cfg node f).mpr
      (Or.inl ⟨node, List.mem_cons_self _ _, hrf node f hf⟩)
  · intro D hD f hf
    exact (mem_clears_full_downstream cfg node f).mpr
      (Or.inl ⟨D, List.mem_cons_of_mem _ hD, hrf D f hf⟩)
  · intro f hf
    exact (mem_clears_full_downstream cfg node f).mpr (Or.inr hf)

/-- C1 witness on the Scenario-B registry: a field of `X` itself, one of
a downstream node, and one of the Always-Cleared Set. -/
theorem C1_witness :
    "x1" ∈ _clears_full_downstream exCfg "X" ∧
    "y1" ∈ _clears_full_downstream exCfg "X" ∧
    "rep1" ∈ _clears_full_downstream exCfg "X" := by
  have h := C1_full_downstream_superset exCfg
    (rulesCoherent_of_all exCfg (by decide)) "X"
  refine ⟨h.1 "x1" (by decide), h.2.1 "Y" ?_ "y1" (by decide), h.2.2 "rep1" (by decide)⟩
  rw [exCfg_downstream]
  decide

/-- C3: under the `custom` policy, `exclude_nodes` influences neither the
cleared state nor the resulting history nor the success flag (any two
exclude lists yield the same three); the nodes removed from history are
exactly the members of `include_nodes` that were present; in particular
the node named in the action survives unless it is in `include_nodes`. -/
theorem C3_custom_exclude_inert (cfg : SimConfig) (state : St) (executed : List String)
    (node : String) (incl excl excl' flds : List String) (irf : Option Bool) :
    ((Simulator.step cfg state executed
        (.ROLLBACK node (some "custom") incl excl flds irf)).updated_state
      = (Simulator.step cfg state executed
        (.ROLLBACK node (some "custom") incl excl' flds irf)).updated_state) ∧
    ((Simulator.step cfg state executed
        (.ROLLBACK node (some "custom") incl excl flds irf)).executed_nodes
      = (Simulator.step cfg state executed
        (.ROLLBACK node (some "custom") incl excl' flds irf)).executed_nodes) ∧
    ((Simulator.step cfg state executed
        (.ROLLBACK node (some "custom") incl excl flds irf)).ok
      = (Simulator.step cfg state executed
        (.ROLLBACK node (some "custom") incl excl' flds irf)).ok) ∧
    (∀ n, n ∈ (Simulator.step cfg state executed
        (.ROLLBACK node (some "custom") incl excl flds irf)).executed_nodes ↔
      n ∈ executed ∧ n ∉ incl) ∧
    (node ∈ executed → node ∉ incl →
      node ∈ (Simulator.step cfg state executed
        (.ROLLBACK node (some "custom") incl excl flds irf)).executed_nodes) := by
  have hmem : ∀ n, n ∈ (Simulator.step cfg state executed
      (.ROLLBACK node (some "custom") incl excl flds irf)).executed_nodes ↔
      n ∈ executed ∧ n ∉ incl := by
    intro n
    show n ∈ (if incl.isEmpty then executed
        else executed.filter (fun m => decide (m ∉ incl))) ↔ n ∈ executed ∧ n ∉ incl
    by_cases hincl : incl.isEmpty
    · rw [if_pos hincl, List.isEmpty_iff.mp hincl]
      simp
    · rw [if_neg hincl, List.mem_filter]
      simp
  exact ⟨rfl, rfl, rfl, hmem, fun h1 h2 => (hmem node).mpr ⟨h1, h2⟩⟩

/-- C3 witness: with `include_nodes=["Y"]` and any `exclude_nodes`, only
`Y` is removed; the named node `X` survives. -/
theorem C3_witness :
    ("X" ∈ (Simulator.step exCfg [("y1", .vstr "v")] ["X", "Y"]
      (.ROLLBACK "X" (some "custom") ["Y"] ["Q"] ["x1"] none)).executed_nodes) ∧
    ¬("Y" ∈ (Simulator.step exCfg [("y1", .vstr "v")] ["X", "Y"]
      (.ROLLBACK "X" (some "custom") ["Y"] ["Q"] ["x1"] none)).executed_nodes) ∧
    ((Simulator.step exCfg [("y1", .vstr "v")] ["X", "Y"]
        (.ROLLBACK "X" (some "custom") ["Y"] ["Q"] ["x1"] none)).updated_state
      = (Simulator.step exCfg [("y1", .vstr "v")] ["X", "Y"]
        (.ROLLBACK "X" (some "custom") ["Y"] [] ["x1"] none)).updated_state) := by
  have h := C3_custom_exclude_inert exCfg [("y1", .vstr "v")] ["X", "Y"]
    "X" ["Y"] ["Q"] [] ["x1"] none
  refine ⟨h.2.2.2.2 (by decide) (by decide), ?_, h.1⟩
  intro hc
  exact absurd ((h.2.2.2.1 "Y").mp hc).2 (by decide)

/-- C5: EXECUTE writes exactly the fields of the node's `produces` write
set — the payload value when supplied, else the retained current state
value, else the explicit `None` marker — leaves every other field
untouched, appends the node to history when absent, and succeeds. -/
theorem C5_execute_write_semantics (cfg : SimConfig) (state : St)
    (executed : List String) (node : String) (payload : List (String × Val)) :
    ((Simulator.step cfg state executed (.EXECUTE node payload)).ok = true) ∧
    (∀ f ∈ _produces cfg node,
      stGet (Simulator.step cfg state executed (.EXECUTE node payload)).updated_state f
        = some (((payload.lookup f).orElse (fun _ => stGet state f)).getD .vnone)) ∧
    (∀ f, f ∉ _produces cfg node →
      stGet (Simulator.step cfg state executed (.EXECUTE node payload)).updated_state f
        = stGet state f) ∧
    ((Simulator.step cfg state executed (.EXECUTE node payload)).executed_nodes
      = if node ∈ executed then executed else executed ++ [node]) := by
  refine ⟨rfl, ?_, ?_, rfl⟩
  · intro f hf
    show stGet ((_write_set cfg node).foldl
      (fun s g => stSet s g (writeVal payload s g)) state) f = _
    rw [stGet_foldWrite payload (_write_set cfg node) state f (write_set_nodup cfg node),
      if_pos (show f ∈ _write_set cfg node from hf)]
    rfl
  · intro f hf
    show stGet ((_write_set cfg node).foldl
      (fun s g => stSet s g (writeVal payload s g)) state) f = _
    rw [stGet_foldWrite payload (_write_set cfg node) state f (write_set_nodup cfg node),
      if_neg (show f ∉ _write_set cfg node from hf)]

/-- C5 witness: Scenario A — empty state, `EXECUTE X` with payload
`a ↦ "1"` where `X` produces `{a, b}`: state becomes `a ↦ "1", b ↦ None`,
history `["X"]`, `ok=true`. -/
theorem C5_witness :
    (Simulator.step exCfgA [] [] (.EXECUTE "X" [("a", .vstr "1")])).ok = true ∧
    stGet (Simulator.step exCfgA [] []
      (.EXECUTE "X" [("a", .vstr "1")])).updated_state "a" = some (.vstr "1") ∧
    stGet (Simulator.step exCfgA [] []
      (.EXECUTE "X" [("a", .vstr "1")])).updated_state "b" = some .vnone ∧
    (Simulator.step exCfgA [] [] (.EXECUTE "X" [("a", .vstr "1")])).updated_state
      = [("a", .vstr "1"), ("b", .vnone)] ∧
    (Simulator.step exCfgA [] [] (.EXECUTE "X" [("a", .vstr "1")])).executed_nodes
      = ["X"] := by
  have h := C5_execute_write_semantics exCfgA [] [] "X" [("a", .vstr "1")]
  exact ⟨h.1, h.2.1 "a" (by decide), h.2.1 "b" (by decide), rfl, rfl⟩

/-- C6: aggregate-only rollback clears exactly `produces(N)`, plus the
`produces` of every aggregate node reachable from `N`, plus the
Always-Cleared Set; afterwards the history contains none of
`{N} ∪ (downstream(N) ∩ aggregates)` while every other node survives in
its original relative order (the result is a sublist of the input). -/
theorem C6_aggregate_only_scope (cfg : SimConfig) (state : St) (executed : List String)
    (node : String) (incl excl flds : List String) (irf : Option Bool) :
    (∀ f, f ∈ _clears_aggregate_only cfg node ↔
       ((f ∈ _produces cfg node ∨
         ∃ d ∈ _downstream_nodes cfg.node_graph node,
           d ∈ _aggregate_nodes cfg ∧ f ∈ _produces cfg d) ∨
        f ∈ _reports_fixed cfg)) ∧
    (∀ f, f ∈ _clears_aggregate_only cfg node →
       stGet (Simulator.step cfg state executed
         (.ROLLBACK node (some "aggregate_only") incl excl flds irf)).updated_state f
         = none) ∧
    (∀ f, f ∉ _clears_aggregate_only cfg node →
       stGet (Simulator.step cfg state executed
         (.ROLLBACK node (some "aggregate_only") incl excl flds irf)).updated_state f
         = stGet state f) ∧
    (∀ n, n ∈ (Simulator.step cfg state executed
        (.ROLLBACK node (some "aggregate_only") incl excl flds irf)).executed_nodes ↔
      (n ∈ executed ∧
        ¬(n = node ∨ (n ∈ _downstream_nodes cfg.node_graph node
          ∧ n ∈ _aggregate_nodes cfg)))) ∧
    List.Sublist
      (Simulator.step cfg state executed
        (.ROLLBACK node (some "aggregate_only") incl excl flds irf)).executed_nodes
      executed := by
  refine ⟨fun f => mem_clears_aggregate_only cfg node f, ?_, ?_, ?_, ?_⟩
  · intro f hf
    show stGet (_apply_clear state (_clears_aggregate_only cfg node)) f = none
    rw [stGet_apply_clear, if_pos hf]
  · intro f hf
    show stGet (_apply_clear state (_clears_aggregate_only cfg node)) f = stGet state f
    rw [stGet_apply_clear, if_neg hf]
  · intro n
    show n ∈ executed.filter (fun m => decide (m ∉ node ::
      (_downstream_nodes cfg.node_graph node).filter
        (fun d => decide (d ∈ _aggregate_nodes cfg)))) ↔ _
    rw [List.mem_filter]
    simp only [List.mem_cons, List.mem_filter, decide_eq_true_eq, not_or, not_and,
      Bool.and_eq_true]
  · show List.Sublist (executed.filter _) executed
    exact List.filter_sublist executed

/-- C6 witness: Scenario B on the example registry — history
`["X","Y","Z"]` with `Y, Z` downstream of `X` and `Z` the aggregate node:
rollback of `X` clears `x1` but keeps `y1`, removes `X` and `Z`, and
keeps `Y`. -/
theorem C6_witness :
    stGet (Simulator.step exCfg [("x1", .vstr "v"), ("y1", .vstr "w")] ["X", "Y", "Z"]
      (.ROLLBACK "X" (some "aggregate_only") [] [] [] none)).updated_state "x1" = none ∧
    stGet (Simulator.step exCfg [("x1", .vstr "v"), ("y1", .vstr "w")] ["X", "Y", "Z"]
      (.ROLLBACK "X" (some "aggregate_only") [] [] [] none)).updated_state "y1"
      = some (.vstr "w") ∧
    ("Y" ∈ (Simulator.step exCfg [("x1", .vstr "v"), ("y1", .vstr "w")] ["X", "Y", "Z"]
      (.ROLLBACK "X" (some "aggregate_only") [] [] [] none)).executed_nodes) ∧
    ¬("X" ∈ (Simulator.step exCfg [("x1", .vstr "v"), ("y1", .vstr "w")] ["X", "Y", "Z"]
      (.ROLLBACK "X" (some "aggregate_only") [] [] [] none)).executed_nodes) ∧
    ¬("Z" ∈ (Simulator.step exCfg [("x1", .vstr "v"), ("y1", .vstr "w")] ["X", "Y", "Z"]
      (.ROLLBACK "X" (some "aggregate_only") [] [] [] none)).executed_nodes) := by
  have h := C6_aggregate_only_scope exCfg [("x1", .vstr "v"), ("y1", .vstr "w")]
    ["X", "Y", "Z"] "X" [] [] [] none
  refine ⟨h.2.1 "x1" ?_, h.2.2.1 "y1" ?_, (h.2.2.2.1 "Y").mpr ?_, ?_, ?_⟩
  · rw [exCfg_clears_aggregate]; decide
  · rw [exCfg_clears_aggregate]; decide
  · refine ⟨by decide, ?_⟩
    rw [exCfg_downstream]
    decide
  · intro hc
    have := ((h.2.2.2.1 "X").mp hc).2
    exact this (Or.inl rfl)
  · intro hc
    have := ((h.2.2.2.1 "Z").mp hc).2
    rw [exCfg_downstream] at this
    exact this (Or.inr (by decide))

/-- C8: executing the same node twice leaves it in the history exactly
once — the second EXECUTE does not change the history at all — while the
field write is re-applied by the second call (a payload value supplied
the second time lands in the state). -/
theorem C8_execute_idempotent_history (cfg : SimConfig) (state : St)
    (executed : List String) (node : String) (p₁ p₂ : List (String × Val))
    (h : node ∉ executed) :
    ((Simulator.step cfg state executed (.EXECUTE node p₁)).executed_nodes
      = executed ++ [node]) ∧
    ((Simulator.step cfg
        (Simulator.step cfg state executed (.EXECUTE node p₁)).updated_state
        (Simulator.step cfg state executed (.EXECUTE node p₁)).executed_nodes
        (.EXECUTE node p₂)).executed_nodes
      = executed ++ [node]) ∧
    ((Simulator.step cfg
        (Simulator.step cfg state executed (.EXECUTE node p₁)).updated_state
        (Simulator.step cfg state executed (.EXECUTE node p₁)).executed_nodes
        (.EXECUTE node p₂)).executed_nodes.count node = 1) ∧
    (∀ f v, f ∈ _produces cfg node → p₂.lookup f = some v →
      stGet (Simulator.step cfg
        (Simulator.step cfg state executed (.EXECUTE node p₁)).updated_state
        (Simulator.step cfg state executed (.EXECUTE node p₁)).executed_nodes
        (.EXECUTE node p₂)).updated_state f = some v) := by
  have h1 : (Simulator.step cfg state executed (.EXECUTE node p₁)).executed_nodes
      = executed ++ [node] := by
    show (if node ∈ executed then executed else executed ++ [node]) = executed ++ [node]
    rw [if_neg h]
  have h2 : (Simulator.step cfg
      (Simulator.step cfg state executed (.EXECUTE node p₁)).updated_state
      (Simulator.step cfg state executed (.EXECUTE node p₁)).executed_nodes
      (.EXECUTE node p₂)).executed_nodes = executed ++ [node] := by
    show (if node ∈ (Simulator.step cfg state executed (.EXECUTE node p₁)).executed_nodes
        then (Simulator.step cfg state executed (.EXECUTE node p₁)).executed_nodes
        else (Simulator.step cfg state executed (.EXECUTE node p₁)).executed_nodes
          ++ [node]) = executed ++ [node]
    rw [h1, if_pos (List.mem_append.mpr (Or.inr (List.mem_singleton.mpr rfl)))]
  refine ⟨h1, h2, ?_, ?_⟩
  · rw [h2, List.count_append, List.count_eq_zero_of_not_mem h]
    simp
  · intro f v hf hlk
    show stGet ((_write_set cfg node).foldl
      (fun s g => stSet s g (writeVal p₂ s g))
      (Simulator.step cfg state executed (.EXECUTE node p₁)).updated_state) f = some v
    rw [stGet_foldWrite p₂ (_write_set cfg node) _ f (write_set_nodup cfg node),
      if_pos (show f ∈ _write_set cfg node from hf)]
    unfold writeVal
    rw [hlk]
    rfl

/-- C8 witness: two EXECUTEs of `X` from empty history. -/
theorem C8_witness :
    ((Simulator.step exCfgA [] [] (.EXECUTE "X" [("a", .vstr "1")])).executed_nodes
      = ["X"]) ∧
    ((Simulator.step exCfgA
        (Simulator.step exCfgA [] [] (.EXECUTE "X" [("a", .vstr "1")])).updated_state
        (Simulator.step exCfgA [] [] (.EXECUTE "X" [("a", .vstr "1")])).executed_nodes
        (.EXECUTE "X" [("a", .vstr "2")])).executed_nodes.count "X" = 1) ∧
    stGet (Simulator.step exCfgA
        (Simulator.step exCfgA [] [] (.EXECUTE "X" [("a", .vstr "1")])).updated_state
        (Simulator.step exCfgA [] [] (.EXECUTE "X" [("a", .vstr "1")])).executed_nodes
        (.EXECUTE "X" [("a", .vstr "2")])).updated_state "a" = some (.vstr "2") := by
  have h := C8_execute_idempotent_history exCfgA [] [] "X"
    [("a", .vstr "1")] [("a", .vstr "2")] (by decide)
  exact ⟨h.1, h.2.2.1, h.2.2.2 "a" (.vstr "2") (by decide) rfl⟩

/-- C7 counterexample: on `exStateAlias` the canonical key
`state.tirads_score` holds the blank value `""` — so the canonical field
is NOT "present" in the claim's sense — while the first alias key
`state.ti_rads_score` holds the present value `"5"`; the claim
(transcribed as `specAliasGet`) therefore predicts the alias value, but
`_get` returns the blank canonical value: `_get` keys on mere key
occurrence, not on presence. -/
theorem C7_counterexample :
    _present exStateAlias "state.tirads_score" = false ∧
    exStateAlias.lookup "state.ti_rads_score" = some (.vstr "5") ∧
    isBlank (.vstr "5") = false ∧
    specAliasGet exStateAlias "state.tirads_score" = .vstr "5" ∧
    _get exStateAlias "state.tirads_score" = .vstr "" ∧
    _get exStateAlias "state.tirads_score"
      ≠ specAliasGet exStateAlias "state.tirads_score" := by
  refine ⟨rfl, rfl, rfl, rfl, rfl, ?_⟩
  have h1 : _get exStateAlias "state.tirads_score" = Val.vstr "" := rfl
  have h2 : specAliasGet exStateAlias "state.tirads_score" = Val.vstr "5" := rfl
  rw [h1, h2]
  intro hc
  exact absurd (Val.vstr.inj hc) (by decide)

/-- C7 amended: the alias-aware lookup returns the value stored at the
first name in `canonical :: aliases` whose KEY occurs in the state —
even when that stored value is empty — and the absent marker `None` when
no such key occurs; `_present` then tests that this value is not
`None`, `""`, `[]` or the empty map. -/
theorem C7_alias_lookup_first_key_found (state : St) (key : String) :
    _get state key = firstFoundKey state (key :: KEY_ALIASES key) ∧
    _present state key
      = !(isBlank (firstFoundKey state (key :: KEY_ALIASES key))) := by
  have hmain : _get state key = firstFoundKey state (key :: KEY_ALIASES key) := by
    unfold _get firstFoundKey
    cases state.lookup key
    · exact aliasLoop_eq_firstFoundKey state _
    · rfl
  refine ⟨hmain, ?_⟩
  unfold _present
  rw [hmain]
